import Mathlib

/-
Shallow embedding of the connection-handling engine in src/http_server.rs
(repository may_minihttp).  The per-connection loop `each_connection_loop`
is modelled as a small-step transition system over explicit buffer state,
driven by oracles that supply the results of the external effects
(socket reads, socket writes, the external request decoder and the user
supplied service).  Machine behaviour that lives outside src (the bytes
crate reserve call, the Response builder and the response encoder) is
modelled at its documented boundary; each such definition carries a doc
comment saying so.
-/

/-- Raw I/O error categories distinguished by the call sites in
src/http_server.rs: ConnectionReset, UnexpectedEof, WouldBlock and the
catch-all for every other kind. -/
inductive IoErrorKind
  | connectionReset
  | unexpectedEof
  | wouldBlock
  | other
  deriving DecidableEq

/-- Result of one call to stream.read: a chunk of bytes (the empty chunk
models a return value of 0, meaning the peer closed) or an error. -/
inductive ReadRes
  | ok (chunk : List Nat)
  | err (k : IoErrorKind)
  deriving DecidableEq

/-- Result of one call to request::decode, per the decoder contract:
a complete request, a need-more-data answer (decode returned None), or
an I/O error propagated through the t! macro. -/
inductive DecodeRes
  | complete
  | needMore
  | err (k : IoErrorKind)
  deriving DecidableEq

/-- Response structure. Modelled from the spec: a transient mutable
structure targeting the body buffer plus status metadata; the concrete
Response type lives in response.rs which is not part of src.  The
default status fields are left empty because no claim depends on them. -/
structure Response where
  code : List Nat
  msg : List Nat
  body : List Nat
  deriving DecidableEq

/-- Response builder. Modelled from the spec: Response::new binds the
response to the given body buffer. -/
def Response.new (buf : List Nat) : Response :=
  { code := [], msg := [], body := buf }

/-- Serialization of a response. Modelled from the spec: the external
encoder appends the serialized bytes of a response to an output buffer;
the spec fixes no wire format, so serialization is modelled as the
concatenation of the response fields, which preserves the append-once
and content-identity facts the claims need. -/
def encodeBytes (r : Response) : List Nat :=
  r.code ++ r.msg ++ r.body

/-- Result of one call to service.call: the response the service
populated (its body staged in the body buffer), or an error value whose
textual description is the given byte list. -/
inductive ServeRes
  | ok (r : Response)
  | err (e : List Nat)
  deriving DecidableEq

/-- Result of one call to stream.write: number of bytes accepted, or an
error. -/
inductive WriteRes
  | ok (n : Nat)
  | err (k : IoErrorKind)
  deriving DecidableEq

/-- Oracles supplying the outcomes of the external effects, consumed in
call order by the connection loop. -/
structure Oracle where
  reads : List ReadRes
  decodes : List DecodeRes
  serves : List ServeRes
  writes : List WriteRes
  deriving DecidableEq

/-- The three per-connection buffers of each_connection_loop, with the
logical contents and the tracked capacity of the two buffers whose
capacity the code inspects. -/
structure Bufs where
  reqBuf : List Nat
  reqCap : Nat
  rspBuf : List Nat
  rspCap : Nat
  bodyBuf : List Nat
  deriving DecidableEq

/-- Control position inside the loop body of each_connection_loop. -/
inductive Phase
  | readLoop
  | dispatch
  | writeLoop (len written : Nat)
  | afterWrite (len written : Nat)
  | waiting
  deriving DecidableEq

/-- Full configuration of one connection task. -/
structure Config where
  phase : Phase
  bufs : Bufs
  env : Oracle
  deriving DecidableEq

/-- Why the connection task returned. -/
inductive CloseReason
  | peerClosedEof
  | reset
  | readWouldBlock
  | writeZero
  | fatal
  deriving DecidableEq

/-- Which operation an error was logged for. -/
inductive Op
  | read
  | write
  | decode
  deriving DecidableEq

/-- Observable actions emitted while the connection loop runs.
readAttempt records the number of unflushed response bytes at the
moment the read is issued. -/
inductive Act
  | readAttempt (pendingRsp : Nat)
  | readOk (n : Nat)
  | boundaryFound
  | decodeAttempt (slots : Nat) (buf : List Nat)
  | serviceOk
  | serviceErr (e : List Nat)
  | encoded (bytes : List Nat)
  | writeAttempt (pending : List Nat)
  | wrote (bytes : List Nat)
  | logged (o : Op)
  | waited
  | closed (r : CloseReason)
  | stuck
  deriving DecidableEq

/-- Contract lower bound of BytesMut reserve.  The bytes crate is an
external collaborator; reserve(additional) guarantees capacity for at
least len + additional bytes and may allocate more.  The step machine
uses this lower bound only as a placeholder capacity (no claim theorem
depends on the exact value); the capacity-growth analysis uses the
nondeterministic reserveCapND below, which ranges over every
over-allocation the contract permits. -/
def reserveCap (len cap add : Nat) : Nat :=
  max cap (len + add)

/-- Nondeterministic capacity outcome of BytesMut reserve: any
capacity that is at least the old capacity and covers len + additional
bytes, written as the contract lower bound plus an arbitrary
over-allocation extra.  Every contract-compliant behaviour of the
external crate, including amortized doubling, is reserveCapND with
some choice of extra at each call. -/
def reserveCapND (len cap add extra : Nat) : Nat :=
  max cap (len + add) + extra

/-- Size of the parsed-header slot array handed to the decoder, from
the declaration of the headers array in each_connection_loop. -/
def headerSlots : Nat := 16

/-- Check whether a byte list starts with the 4-byte header terminator
CR LF CR LF. -/
def startsWithTerm (l : List Nat) : Bool :=
  l.take 4 == [13, 10, 13, 10]

/-- Occurrence test for the header terminator in the accumulated read
buffer; models FinderRev rfind on the needle CR LF CR LF being Some,
which holds exactly when the needle occurs in the haystack. -/
def hasTerm : List Nat → Bool
  | [] => false
  | a :: l => startsWithTerm (a :: l) || hasTerm l

/-- Translation of internal_error_rsp (src/http_server.rs lines 77-86):
clear the body buffer, build a fresh response on it, set status 500
Internal Server Error and extend the body with the textual description
of the error. -/
def internal_error_rsp (e : List Nat) (buf : List Nat) : Response :=
  let buf2 : List Nat := []
  let err_rsp := Response.new buf2
  let err_rsp := { err_rsp with code := [53, 48, 48],
                                msg := [73, 110, 116, 101, 114, 110, 97, 108, 32, 83, 101,
                                        114, 118, 101, 114, 32, 69, 114, 114, 111, 114] }
  { err_rsp with body := err_rsp.body ++ e }

/-- Status bytes of the internal error fallback, the digits 5 0 0. -/
def STATUS_500 : List Nat := [53, 48, 48]

/-- Message bytes of the internal error fallback, the text
Internal Server Error. -/
def MSG_INTERNAL : List Nat :=
  [73, 110, 116, 101, 114, 110, 97, 108, 32, 83, 101,
   114, 118, 101, 114, 32, 69, 114, 114, 111, 114]

/-- One step of each_connection_loop (src/http_server.rs lines 94-199).
Each case is a direct translation of the corresponding source block:
readLoop is the inner read loop (lines 104-140), dispatch is the
response-buffer reserve, header array, decode and service call block
(lines 142-163, including the unconditional req_buf.clear()), writeLoop
is the drain loop (lines 167-189), afterWrite is the set_len / advance
epilogue (lines 190-194) and waiting is the wait_io call (line 197)
followed by the jump back to the top of the outer loop. -/
def step (c : Config) : List Act × Option Config :=
  match c.phase with
  | .readLoop =>
    let b := c.bufs
    let remaining := b.reqCap - b.reqBuf.length
    let reqCap2 :=
      if remaining < 512 then reserveCap b.reqBuf.length b.reqCap (4096 * 8 - remaining)
      else b.reqCap
    let b := { b with reqCap := reqCap2 }
    match c.env.reads with
    | [] => ([.stuck], none)
    | r :: rs =>
      let env := { c.env with reads := rs }
      match r with
      | .ok chunk =>
        if chunk.length = 0 then
          ([.readAttempt b.rspBuf.length, .closed .peerClosedEof], none)
        else
          let b := { b with reqBuf := b.reqBuf ++ chunk }
          if hasTerm b.reqBuf then
            ([.readAttempt b.rspBuf.length, .readOk chunk.length, .boundaryFound],
             some ⟨.dispatch, b, env⟩)
          else
            ([.readAttempt b.rspBuf.length, .readOk chunk.length],
             some ⟨.readLoop, b, env⟩)
      | .err .wouldBlock =>
        ([.readAttempt b.rspBuf.length, .closed .readWouldBlock], none)
      | .err .connectionReset =>
        ([.readAttempt b.rspBuf.length, .closed .reset], none)
      | .err .unexpectedEof =>
        ([.readAttempt b.rspBuf.length, .closed .reset], none)
      | .err .other =>
        ([.readAttempt b.rspBuf.length, .logged .read, .closed .fatal], none)
  | .dispatch =>
    let b := c.bufs
    let remaining := b.rspCap - b.rspBuf.length
    let rspCap2 :=
      if remaining < 512 then reserveCap b.rspBuf.length b.rspCap (4096 * 32 - remaining)
      else b.rspCap
    let b := { b with rspCap := rspCap2 }
    match c.env.decodes with
    | [] => ([.decodeAttempt headerSlots b.reqBuf, .stuck], none)
    | d :: ds =>
      let env := { c.env with decodes := ds }
      match d with
      | .err .connectionReset =>
        ([.decodeAttempt headerSlots b.reqBuf, .closed .reset], none)
      | .err .unexpectedEof =>
        ([.decodeAttempt headerSlots b.reqBuf, .closed .reset], none)
      | .err _ =>
        ([.decodeAttempt headerSlots b.reqBuf, .logged .decode, .closed .fatal], none)
      | .needMore =>
        let b2 := { b with reqBuf := [] }
        ([.decodeAttempt headerSlots b.reqBuf],
         some ⟨.writeLoop b2.rspBuf.length 0, b2, env⟩)
      | .complete =>
        match env.serves with
        | [] => ([.decodeAttempt headerSlots b.reqBuf, .stuck], none)
        | s :: ss =>
          let env := { env with serves := ss }
          match s with
          | .ok r =>
            let b2 := { b with bodyBuf := r.body,
                               rspBuf := b.rspBuf ++ encodeBytes r,
                               reqBuf := [] }
            ([.decodeAttempt headerSlots b.reqBuf, .serviceOk, .encoded (encodeBytes r)],
             some ⟨.writeLoop b2.rspBuf.length 0, b2, env⟩)
          | .err e =>
            let er := internal_error_rsp e b.bodyBuf
            let b2 := { b with bodyBuf := er.body,
                               rspBuf := b.rspBuf ++ encodeBytes er,
                               reqBuf := [] }
            ([.decodeAttempt headerSlots b.reqBuf, .serviceErr e, .encoded (encodeBytes er)],
             some ⟨.writeLoop b2.rspBuf.length 0, b2, env⟩)
  | .writeLoop len written =>
    let b := c.bufs
    if written < len then
      match c.env.writes with
      | [] => ([.stuck], none)
      | w :: ws =>
        let env := { c.env with writes := ws }
        match w with
        | .ok n =>
          if n = 0 then
            ([.writeAttempt (b.rspBuf.drop written), .closed .writeZero], none)
          else
            let n2 := min n (len - written)
            ([.writeAttempt (b.rspBuf.drop written), .wrote ((b.rspBuf.drop written).take n2)],
             some ⟨.writeLoop len (written + n2), b, env⟩)
        | .err .wouldBlock =>
          ([.writeAttempt (b.rspBuf.drop written)], some ⟨.afterWrite len written, b, env⟩)
        | .err .connectionReset =>
          ([.writeAttempt (b.rspBuf.drop written), .closed .reset], none)
        | .err .unexpectedEof =>
          ([.writeAttempt (b.rspBuf.drop written), .closed .reset], none)
        | .err .other =>
          ([.writeAttempt (b.rspBuf.drop written), .logged .write, .closed .fatal], none)
    else
      ([], some ⟨.afterWrite len written, b, c.env⟩)
  | .afterWrite len written =>
    let b := c.bufs
    if written = len then
      ([], some ⟨.waiting, { b with rspBuf := [] }, c.env⟩)
    else if 0 < written then
      ([], some ⟨.waiting, { b with rspBuf := b.rspBuf.drop written,
                                    rspCap := b.rspCap - written }, c.env⟩)
    else
      ([], some ⟨.waiting, b, c.env⟩)
  | .waiting =>
    ([.waited], some ⟨.readLoop, c.bufs, c.env⟩)

/-- Trace of actions emitted by running the connection loop for a given
number of steps or until the task returns. -/
def run : Nat → Config → List Act
  | 0, _ => []
  | fuel + 1, c =>
    match step c with
    | (as, none) => as
    | (as, some c2) => as ++ run fuel c2

/-- Configuration reached after n steps, or none when the task returned
within them. -/
def steps : Nat → Config → Option Config
  | 0, c => some c
  | fuel + 1, c =>
    match step c with
    | (_, none) => none
    | (_, some c2) => steps fuel c2

/-- Initial configuration of a connection task, with the capacities the
source gives to BytesMut with_capacity (lines 95-97). -/
def initConfig (env : Oracle) : Config :=
  ⟨.readLoop, ⟨[], 4096 * 8, [], 4096 * 32, []⟩, env⟩

/-- Concatenation of a list of byte chunks. -/
def concatAll : List (List Nat) → List Nat
  | [] => []
  | l :: ls => l ++ concatAll ls

/-- Bytes actually transmitted during a trace, in trace order. -/
def bytesWritten : List Act → List Nat
  | [] => []
  | .wrote bs :: tr => bs ++ bytesWritten tr
  | _ :: tr => bytesWritten tr

/-- Number of encoded responses in a trace. -/
def countEncoded (tr : List Act) : Nat :=
  (tr.filter fun a => match a with | .encoded _ => true | _ => false).length

/-- Inner read loop of each_connection_loop restricted to successful
reads: accumulate each chunk and break at the first accumulated buffer
in which the terminator occurs (lines 113-124). -/
def readUntilBoundary (acc : List Nat) : List (List Nat) → Option (List Nat)
  | [] => none
  | ch :: rest =>
    let acc2 := acc ++ ch
    if hasTerm acc2 then some acc2 else readUntilBoundary acc2 rest

/-- Read-buffer bookkeeping state for the growth analysis: logical
length, capacity and the number of growth events so far. -/
structure GrowSt where
  len : Nat
  cap : Nat
  growths : Nat
  deriving DecidableEq

/-- Capacity check performed before each read (lines 106-109), followed
by one single-byte read: when free capacity is below 512 the buffer is
grown via reserve(4096 * 8 - remaining), whose resulting capacity is
the contract lower bound plus the over-allocation extra the external
crate chooses for this call. -/
def growStepND (extra : Nat) (b : GrowSt) : GrowSt :=
  let remaining := b.cap - b.len
  if remaining < 512 then
    { len := b.len + 1,
      cap := reserveCapND b.len b.cap (4096 * 8 - remaining) extra,
      growths := b.growths + 1 }
  else
    { len := b.len + 1, cap := b.cap, growths := b.growths }

/-- Read-buffer state after n single-byte reads, starting from the
initial capacity 4096 * 8 of line 95, under the over-allocation
schedule ex of the external crate (ex m is the over-allocation the
crate would add at read m). -/
def bufSimND (ex : Nat → Nat) : Nat → GrowSt
  | 0 => { len := 0, cap := 4096 * 8, growths := 0 }
  | n + 1 => growStepND (ex n) (bufSimND ex n)

/-- Over-allocation schedule of the C9 counterexample: the reserve at
the first growth event over-allocates 100 bytes beyond the requested
amount, as the at-least contract of the external crate permits; every
other reserve returns the contract minimum. -/
def exA : Nat → Nat := fun m => if m = 32257 then 100 else 0

/-- Outcome of one run of the write drain loop. -/
inductive WriteOutcome
  | completed
  | blocked (written : Nat)
  | closedZero
  | closedPeer
  | fatalWrite
  | stuck
  deriving DecidableEq

/-- Write drain loop of each_connection_loop (lines 165-189) as a
recursive function over the pending write results: returns the chunks
transmitted and the outcome.  The slice written at cursor written is
rspBuf drop written, as in the source, and a successful write of n
bytes advances the cursor by n (bounded by the remaining slice length,
as a real socket write is). -/
def writePhase (rsp : List Nat) (len written : Nat) : List WriteRes → List (List Nat) × WriteOutcome
  | [] =>
    if written < len then ([], .stuck) else ([], .completed)
  | w :: ws =>
    if written < len then
      match w with
      | .ok n =>
        if n = 0 then ([], .closedZero)
        else
          let n2 := min n (len - written)
          let rest := writePhase rsp len (written + n2) ws
          (((rsp.drop written).take n2) :: rest.1, rest.2)
      | .err .wouldBlock => ([], .blocked written)
      | .err .connectionReset => ([], .closedPeer)
      | .err .unexpectedEof => ([], .closedPeer)
      | .err .other => ([], .fatalWrite)
    else ([], .completed)

/-- Result of one accepted item in the accept loop. -/
inductive AcceptRes
  | conn (id : Nat)
  | err (k : IoErrorKind)
  deriving DecidableEq

/-- Observable actions of the accept loop. -/
inductive AcceptAction
  | spawned (id : Nat)
  | acceptLogged
  deriving DecidableEq

/-- Accept loop of HttpServiceFactory start and HttpServer start
(lines 62-74 and 251-264): for each accept result, an error is logged
by the t_c macro and the loop continues, a connection spawns a task.
The incoming iterator of the listener never ends on an error, so the
loop processes every accept result. -/
def acceptLoop : List AcceptRes → List AcceptAction
  | [] => []
  | .conn i :: rest => .spawned i :: acceptLoop rest
  | .err _ :: rest => .acceptLogged :: acceptLoop rest

/-- Header-capacity behaviour of the decoder.  Modelled from the spec:
request::decode lives in request.rs which is not part of src; the spec
states that a request with more headers than the slot capacity is a
decode failure and never a reallocation.  Returns whether decoding can
succeed together with the slot capacity after the call. -/
def decodeHeaderCheck (headerCount slots : Nat) : Bool × Nat :=
  (headerCount ≤ slots, slots)

/-- Characterization of the terminator prefix test. -/
lemma startsWithTerm_iff (l : List Nat) :
    startsWithTerm l = true ↔ ∃ t, l = [13, 10, 13, 10] ++ t := by
  unfold startsWithTerm
  rw [beq_iff_eq]
  constructor
  · intro h
    refine ⟨l.drop 4, ?_⟩
    conv_lhs => rw [← List.take_append_drop 4 l]
    rw [h]
  · rintro ⟨t, rfl⟩
    rfl

/-- The detector is true exactly when the 4-byte terminator occurs
contiguously in the buffer. -/
lemma hasTerm_iff (l : List Nat) :
    hasTerm l = true ↔ ∃ s t, l = s ++ [13, 10, 13, 10] ++ t := by
  induction l with
  | nil =>
    constructor
    · intro h; exact absurd h (by decide)
    · rintro ⟨s, t, h⟩; cases s <;> simp_all
  | cons a l ih =>
    show (startsWithTerm (a :: l) || hasTerm l) = true ↔ _
    rw [Bool.or_eq_true, startsWithTerm_iff, ih]
    constructor
    · rintro (⟨t, h⟩ | ⟨s, t, h⟩)
      · exact ⟨[], t, h⟩
      · exact ⟨a :: s, t, by rw [h]; rfl⟩
    · rintro ⟨s, t, h⟩
      cases s with
      | nil => exact Or.inl ⟨t, h⟩
      | cons b s2 =>
        injection h with h1 h2
        exact Or.inr ⟨s2, t, h2⟩

/-- When the read loop reports a boundary, it does so at the first
accumulated buffer containing the terminator. -/
lemma readUB_some (chunks : List (List Nat)) :
    ∀ acc b, hasTerm acc = false → readUntilBoundary acc chunks = some b →
      ∃ k, k ≤ chunks.length ∧ b = acc ++ concatAll (chunks.take k) ∧
        hasTerm b = true ∧
        ∀ j, j < k → hasTerm (acc ++ concatAll (chunks.take j)) = false := by
  induction chunks with
  | nil =>
    intro acc b hf h
    exact absurd h (by simp [readUntilBoundary])
  | cons c rest ih =>
    intro acc b hf h
    simp only [readUntilBoundary] at h
    by_cases ht : hasTerm (acc ++ c) = true
    · rw [if_pos ht] at h
      injection h with h2
      refine ⟨1, by simp, ?_, ?_, ?_⟩
      · rw [← h2]; simp [concatAll]
      · rw [← h2]; exact ht
      · intro j hj
        have hj0 : j = 0 := by omega
        subst hj0
        simpa [concatAll] using hf
    · rw [if_neg ht] at h
      obtain ⟨k, hk, hb, htm, hmin⟩ := ih (acc ++ c) b (by simpa using ht) h
      refine ⟨k + 1, by simpa using Nat.succ_le_succ hk, ?_, htm, ?_⟩
      · rw [hb]; simp [concatAll]
      · intro j hj
        cases j with
        | zero => simpa [concatAll] using hf
        | succ j2 =>
          have := hmin j2 (by omega)
          simpa [concatAll, List.append_assoc] using this

/-- When the read loop never reports a boundary, no accumulated buffer
contains the terminator. -/
lemma readUB_none (chunks : List (List Nat)) :
    ∀ acc, hasTerm acc = false → readUntilBoundary acc chunks = none →
      ∀ j, j ≤ chunks.length → hasTerm (acc ++ concatAll (chunks.take j)) = false := by
  induction chunks with
  | nil =>
    intro acc hf _ j hj
    have hj0 : j = 0 := by simpa using hj
    subst hj0
    simpa [concatAll] using hf
  | cons c rest ih =>
    intro acc hf h j hj
    simp only [readUntilBoundary] at h
    by_cases ht : hasTerm (acc ++ c) = true
    · rw [if_pos ht] at h; cases h
    · rw [if_neg ht] at h
      cases j with
      | zero => simpa [concatAll] using hf
      | succ j2 =>
        have := ih (acc ++ c) (by simpa using ht) h j2 (by simpa using hj)
        simpa [concatAll, List.append_assoc] using this

/-- C6: for any byte stream whose complete header terminator arrives
split across an arbitrary number of successful reads, the boundary
detection of the read loop fires exactly once, at the first
accumulated buffer in which the terminator occurs; the detector is
true exactly when all four terminator bytes 13 10 13 10 are present
contiguously, so it never fires earlier, and when no accumulated
prefix contains the terminator it never fires at all. -/
theorem boundary_detection_correct (l : List Nat) (chunks : List (List Nat)) (b : List Nat) :
    (hasTerm l = true ↔ ∃ s t, l = s ++ [13, 10, 13, 10] ++ t)
    ∧ (readUntilBoundary [] chunks = some b →
        ∃ k, k ≤ chunks.length ∧ b = concatAll (chunks.take k) ∧ hasTerm b = true ∧
          ∀ j, j < k → hasTerm (concatAll (chunks.take j)) = false)
    ∧ (readUntilBoundary [] chunks = none →
        ∀ j, j ≤ chunks.length → hasTerm (concatAll (chunks.take j)) = false) := by
  refine ⟨hasTerm_iff l, ?_, ?_⟩
  · intro h
    obtain ⟨k, hk, hb, htm, hmin⟩ := readUB_some chunks [] b rfl h
    exact ⟨k, hk, by simpa using hb, htm, fun j hj => by simpa using hmin j hj⟩
  · intro h j hj
    simpa using readUB_none chunks [] rfl h j hj

/-- Witness for boundary_detection_correct: the terminator arrives
split across three reads and detection fires at the third. -/
theorem boundary_detection_correct_witness :
    ∃ k, k ≤ ([[71, 69, 84, 13], [10, 13], [10]] : List (List Nat)).length
      ∧ [71, 69, 84, 13, 10, 13, 10]
          = concatAll (([[71, 69, 84, 13], [10, 13], [10]] : List (List Nat)).take k)
      ∧ hasTerm [71, 69, 84, 13, 10, 13, 10] = true
      ∧ ∀ j, j < k →
          hasTerm (concatAll (([[71, 69, 84, 13], [10, 13], [10]] : List (List Nat)).take j)) = false :=
  (boundary_detection_correct [71, 69, 84, 13, 10, 13, 10]
    [[71, 69, 84, 13], [10, 13], [10]] [71, 69, 84, 13, 10, 13, 10]).2.1 (by decide)

/-- Classification the read error arm implements (lines 126-138):
reset and unexpected end-of-stream close silently, would-block also
returns (closing the task), anything else is logged and closes. -/
def readErrorAction : IoErrorKind → List Act
  | .wouldBlock => [.closed .readWouldBlock]
  | .connectionReset => [.closed .reset]
  | .unexpectedEof => [.closed .reset]
  | .other => [.logged .read, .closed .fatal]

/-- Classification the write error arm implements (lines 176-187):
would-block breaks out of the drain loop without closing, reset and
unexpected end-of-stream close silently, anything else is logged and
closes. -/
def writeErrorAction : IoErrorKind → List Act
  | .wouldBlock => []
  | .connectionReset => [.closed .reset]
  | .unexpectedEof => [.closed .reset]
  | .other => [.logged .write, .closed .fatal]

/-- Continuation after a write error: only would-block continues, into
the after-write epilogue with the unwritten bytes retained. -/
def writeErrorNext (k : IoErrorKind) (len written : Nat) (b : Bufs) (env : Oracle) :
    Option Config :=
  match k with
  | .wouldBlock => some ⟨.afterWrite len written, b, env⟩
  | _ => none

/-- C1 counterexample: the claim says a would-block error on a read
suspends the task and retries without closing the connection; on the
code the very first would-block read terminates the task with no
continuation, closing the connection. -/
theorem read_wouldblock_closes :
    (step (initConfig ⟨[.err .wouldBlock], [], [], []⟩)).2 = none
    ∧ (step (initConfig ⟨[.err .wouldBlock], [], [], []⟩)).1
        = [.readAttempt 0, .closed .readWouldBlock] :=
  ⟨rfl, rfl⟩

/-- C1 amended: errors at the read and write call sites are classified
uniformly by the table the code implements: connection-reset and
unexpected end-of-stream terminate the task silently; any other error
except would-block is logged with the operation and terminates the
task; a would-block on a read terminates the task silently rather than
retrying, and a would-block on a write ends the drain loop without
closing the connection, the unwritten bytes staying queued while the
task proceeds to the readiness wait. -/
theorem error_classifier_uniform (b : Bufs) (env : Oracle) (k : IoErrorKind)
    (rs : List ReadRes) (ws : List WriteRes) (len written : Nat) :
    (env.reads = .err k :: rs →
      step ⟨.readLoop, b, env⟩
        = (Act.readAttempt b.rspBuf.length :: readErrorAction k, none))
    ∧ (env.writes = .err k :: ws → written < len →
      step ⟨.writeLoop len written, b, env⟩
        = (Act.writeAttempt (b.rspBuf.drop written) :: writeErrorAction k,
           writeErrorNext k len written b { env with writes := ws })) := by
  obtain ⟨er, ed, es, ew⟩ := env
  constructor
  · intro h
    have h2 : er = ReadRes.err k :: rs := h
    subst h2
    cases k <;> rfl
  · intro h hw
    have h2 : ew = WriteRes.err k :: ws := h
    subst h2
    unfold step
    dsimp only
    rw [if_pos hw]
    cases k <;> rfl

/-- Witness for error_classifier_uniform at concrete configurations:
a reset error on a read closes silently, a would-block on a write
continues into the after-write epilogue. -/
theorem error_classifier_uniform_witness :
    step ⟨.readLoop, ⟨[], 8, [], 8, []⟩, ⟨[.err .connectionReset], [], [], []⟩⟩
      = ([.readAttempt 0, .closed .reset], none)
    ∧ step ⟨.writeLoop 2 0, ⟨[], 8, [65, 66], 8, []⟩, ⟨[], [], [], [.err .wouldBlock]⟩⟩
      = ([.writeAttempt [65, 66]],
         some ⟨.afterWrite 2 0, ⟨[], 8, [65, 66], 8, []⟩, ⟨[], [], [], []⟩⟩) :=
  ⟨(error_classifier_uniform ⟨[], 8, [], 8, []⟩ ⟨[.err .connectionReset], [], [], []⟩
      .connectionReset [] [] 0 0).1 rfl,
   (error_classifier_uniform ⟨[], 8, [65, 66], 8, []⟩ ⟨[], [], [], [.err .wouldBlock]⟩
      .wouldBlock [] [] 2 0).2 rfl (by decide)⟩

/-- Oracle of the C2 and C7 counterexample scenario: one request
arrives whole, the service answers with a two byte response, the
socket accepts one byte then would-blocks, and the following read
would-blocks. -/
def envWriteBlock : Oracle :=
  ⟨[.ok [13, 10, 13, 10], .err .wouldBlock], [.complete],
   [.ok ⟨[], [], [66, 67]⟩], [.ok 1, .err .wouldBlock]⟩

/-- Predicate form of claim C2 on a trace: every read attempt happens
with zero unflushed response bytes. -/
def readsOnlyWhenFlushed (tr : List Act) : Prop :=
  ∀ n, Act.readAttempt n ∈ tr → n = 0

/-- C2 counterexample: in the envWriteBlock scenario the trace of the
connection loop contains a read attempt issued while one response byte
of the current cycle is still unflushed, so the write-before-read
ordering claimed fails across a would-block suspension. -/
theorem write_before_read_fails :
    ¬ readsOnlyWhenFlushed (run 12 (initConfig envWriteBlock)) := by
  intro h
  exact Nat.one_ne_zero (h 1 (by decide))

/-- C2 amended: when a write phase drains the whole response buffer
the task reaches the next read phase with the response buffer empty;
but after a would-block during the write phase the task proceeds to
the readiness wait and then to the next read phase with the unflushed
remainder retained at the front of the response buffer, so
write-before-read ordering holds only for cycles whose drain loop
completes without a would-block. -/
theorem write_before_read_amended (b : Bufs) (env : Oracle) (len written : Nat) :
    (step ⟨.afterWrite len len, b, env⟩
      = ([], some ⟨.waiting, { b with rspBuf := [] }, env⟩))
    ∧ (written < len → 0 < written →
      step ⟨.afterWrite len written, b, env⟩
        = ([], some ⟨.waiting, { b with rspBuf := b.rspBuf.drop written,
                                        rspCap := b.rspCap - written }, env⟩))
    ∧ (step ⟨.waiting, b, env⟩ = ([.waited], some ⟨.readLoop, b, env⟩)) := by
  refine ⟨?_, ?_, rfl⟩
  · unfold step
    dsimp only
    rw [if_pos rfl]
  · intro h1 h2
    unfold step
    dsimp only
    rw [if_neg (by omega : ¬ written = len), if_pos h2]

/-- Witness for write_before_read_amended at a concrete state with one
of three response bytes written before a would-block. -/
theorem write_before_read_amended_witness :
    step ⟨.afterWrite 3 1, ⟨[], 8, [65, 66, 67], 8, []⟩, ⟨[], [], [], []⟩⟩
      = ([], some ⟨.waiting, ⟨[], 8, [66, 67], 7, []⟩, ⟨[], [], [], []⟩⟩) :=
  (write_before_read_amended ⟨[], 8, [65, 66, 67], 8, []⟩ ⟨[], [], [], []⟩ 3 1).2.1
    (by decide) (by decide)

/-- Oracle of the C3 counterexample: the boundary scan fires but the
decoder reports need-more-data for the buffered bytes. -/
def envNeedMore : Oracle := ⟨[.ok [13, 10, 13, 10]], [.needMore], [], []⟩

/-- C3 counterexample: after a need-more-data decode the read buffer
length has been reset to zero even though no full request was
consumed; the four accumulated bytes are discarded, not retained as
the claim states. -/
theorem needmore_clears_reqbuf :
    ((steps 2 (initConfig envNeedMore)).map fun c => c.bufs.reqBuf) = some []
    ∧ ((steps 2 (initConfig envNeedMore)).map fun c => c.bufs.reqBuf)
        ≠ some [13, 10, 13, 10] :=
  ⟨by decide, by decide⟩

/-- C3 amended: the read buffer length is reset to zero after every
decode attempt that leaves the connection open, including when the
decoder reports need-more-data: the accumulated partial request bytes
are discarded rather than retained, and the task then proceeds through
the write phase and the readiness wait back to the read phase. -/
theorem reqbuf_cleared_every_cycle (b : Bufs) (env : Oracle)
    (ds : List DecodeRes) (s : ServeRes) (ss : List ServeRes) :
    (env.decodes = .needMore :: ds →
      ∃ c2, (step ⟨.dispatch, b, env⟩).2 = some c2 ∧ c2.bufs.reqBuf = []
        ∧ c2.phase = .writeLoop b.rspBuf.length 0)
    ∧ (env.decodes = .complete :: ds → env.serves = s :: ss →
      ∃ c2, (step ⟨.dispatch, b, env⟩).2 = some c2 ∧ c2.bufs.reqBuf = []) := by
  obtain ⟨er, ed, es, ew⟩ := env
  constructor
  · intro h
    have h2 : ed = DecodeRes.needMore :: ds := h
    subst h2
    exact ⟨_, rfl, rfl, rfl⟩
  · intro h h3
    have h2 : ed = DecodeRes.complete :: ds := h
    subst h2
    have h4 : es = s :: ss := h3
    subst h4
    cases s with
    | ok r => exact ⟨_, rfl, rfl⟩
    | err e => exact ⟨_, rfl, rfl⟩

/-- Witness for reqbuf_cleared_every_cycle: a need-more-data decode on
a five byte buffered prefix leaves an empty read buffer. -/
theorem reqbuf_cleared_every_cycle_witness :
    ∃ c2, (step ⟨.dispatch, ⟨[71, 13, 10, 13, 10], 8, [], 8, []⟩,
        ⟨[], [.needMore], [], []⟩⟩).2 = some c2
      ∧ c2.bufs.reqBuf = [] ∧ c2.phase = .writeLoop 0 0 :=
  (reqbuf_cleared_every_cycle ⟨[71, 13, 10, 13, 10], 8, [], 8, []⟩
    ⟨[], [.needMore], [], []⟩ [] (.ok ⟨[], [], []⟩) []).1 rfl

/-- Encoded bytes a dispatch appends for a given service outcome. -/
def encodedOf (s : ServeRes) (bodyBuf : List Nat) : List Nat :=
  match s with
  | .ok r => encodeBytes r
  | .err e => encodeBytes (internal_error_rsp e bodyBuf)

/-- C4: every successfully decoded request leads to exactly one
response being encoded into the response buffer, either the service
response or the internal-error fallback, never zero and never two;
a need-more-data decode encodes none. -/
theorem one_response_per_request (b : Bufs) (env : Oracle)
    (ds : List DecodeRes) (s : ServeRes) (ss : List ServeRes) :
    (env.decodes = .complete :: ds → env.serves = s :: ss →
      countEncoded (step ⟨.dispatch, b, env⟩).1 = 1
      ∧ ∃ c2, (step ⟨.dispatch, b, env⟩).2 = some c2
          ∧ c2.bufs.rspBuf = b.rspBuf ++ encodedOf s b.bodyBuf)
    ∧ (env.decodes = .needMore :: ds →
      countEncoded (step ⟨.dispatch, b, env⟩).1 = 0
      ∧ ∃ c2, (step ⟨.dispatch, b, env⟩).2 = some c2 ∧ c2.bufs.rspBuf = b.rspBuf) := by
  obtain ⟨er, ed, es, ew⟩ := env
  constructor
  · intro h h3
    have h2 : ed = DecodeRes.complete :: ds := h
    subst h2
    have h4 : es = s :: ss := h3
    subst h4
    cases s with
    | ok r => exact ⟨rfl, ⟨_, rfl, rfl⟩⟩
    | err e => exact ⟨rfl, ⟨_, rfl, rfl⟩⟩
  · intro h
    have h2 : ed = DecodeRes.needMore :: ds := h
    subst h2
    exact ⟨rfl, ⟨_, rfl, rfl⟩⟩

/-- Witness for one_response_per_request: a failing service call still
produces exactly one encoded response. -/
theorem one_response_per_request_witness :
    countEncoded (step ⟨.dispatch, ⟨[13, 10, 13, 10], 8, [70], 8, [1, 2]⟩,
        ⟨[], [.complete], [.err [101]], []⟩⟩).1 = 1
    ∧ ∃ c2, (step ⟨.dispatch, ⟨[13, 10, 13, 10], 8, [70], 8, [1, 2]⟩,
        ⟨[], [.complete], [.err [101]], []⟩⟩).2 = some c2
        ∧ c2.bufs.rspBuf = [70] ++ encodedOf (.err [101]) [1, 2] :=
  (one_response_per_request ⟨[13, 10, 13, 10], 8, [70], 8, [1, 2]⟩
    ⟨[], [.complete], [.err [101]], []⟩ [] (.err [101]) []).1 rfl rfl

/-- C5: a service failure is converted at the dispatch boundary into
the internal-error fallback: status code 500 with message Internal
Server Error, body equal to the textual description of the failure,
built from a freshly cleared body buffer (the result is independent of
the prior buffer contents), encoded into the response buffer, and the
connection survives into the write phase of the same cycle. -/
theorem service_error_fallback (e buf : List Nat) (b : Bufs) (env : Oracle)
    (ds : List DecodeRes) (ss : List ServeRes) :
    internal_error_rsp e buf = ⟨STATUS_500, MSG_INTERNAL, e⟩
    ∧ (env.decodes = .complete :: ds → env.serves = .err e :: ss →
      ∃ c2, (step ⟨.dispatch, b, env⟩).2 = some c2
        ∧ c2.bufs.rspBuf = b.rspBuf ++ encodeBytes (internal_error_rsp e b.bodyBuf)
        ∧ c2.phase = .writeLoop c2.bufs.rspBuf.length 0) := by
  constructor
  · rfl
  · obtain ⟨er, ed, es, ew⟩ := env
    intro h h3
    have h2 : ed = DecodeRes.complete :: ds := h
    subst h2
    have h4 : es = ServeRes.err e :: ss := h3
    subst h4
    exact ⟨_, rfl, rfl, rfl⟩

/-- Witness for service_error_fallback at a concrete failing service
call. -/
theorem service_error_fallback_witness :
    internal_error_rsp [120] [9, 9] = ⟨STATUS_500, MSG_INTERNAL, [120]⟩
    ∧ ∃ c2, (step ⟨.dispatch, ⟨[13, 10, 13, 10], 8, [], 8, [7]⟩,
        ⟨[], [.complete], [.err [120]], []⟩⟩).2 = some c2
        ∧ c2.bufs.rspBuf = [] ++ encodeBytes (internal_error_rsp [120] [7])
        ∧ c2.phase = .writeLoop c2.bufs.rspBuf.length 0 :=
  ⟨(service_error_fallback [120] [9, 9] ⟨[13, 10, 13, 10], 8, [], 8, [7]⟩
      ⟨[], [.complete], [.err [120]], []⟩ [] []).1,
   (service_error_fallback [120] [9, 9] ⟨[13, 10, 13, 10], 8, [], 8, [7]⟩
      ⟨[], [.complete], [.err [120]], []⟩ [] []).2 rfl rfl⟩

/-- Unfolding of one successful write of n bytes inside the drain
loop. -/
lemma writePhase_cons_ok (rsp : List Nat) (len written n : Nat) (ws : List WriteRes)
    (h : written < len) (hn : ¬ n = 0) :
    writePhase rsp len written (.ok n :: ws)
      = (((rsp.drop written).take (min n (len - written)))
          :: (writePhase rsp len (written + min n (len - written)) ws).1,
         (writePhase rsp len (written + min n (len - written)) ws).2) := by
  rw [writePhase, if_pos h]
  dsimp only
  rw [if_neg hn]

/-- Transmitted chunks of one drain-loop run concatenate to a
contiguous in-order slice of the response starting at the initial
cursor, and a completed outcome means the cursor reached the end. -/
lemma writePhase_inorder (rsp : List Nat) (ws : List WriteRes) :
    ∀ written, written ≤ rsp.length →
      ∃ w2, written ≤ w2 ∧ w2 ≤ rsp.length ∧
        concatAll (writePhase rsp rsp.length written ws).1
          = (rsp.drop written).take (w2 - written) ∧
        ((writePhase rsp rsp.length written ws).2 = .completed → w2 = rsp.length) := by
  induction ws with
  | nil =>
    intro written hw
    by_cases h : written < rsp.length
    · refine ⟨written, le_refl _, hw, ?_, ?_⟩
      · simp [writePhase, if_pos h, concatAll]
      · intro hc
        rw [writePhase, if_pos h] at hc
        cases hc
    · have hwl : written = rsp.length := by omega
      subst hwl
      refine ⟨rsp.length, le_refl _, le_refl _, ?_, fun _ => rfl⟩
      simp [writePhase, concatAll]
  | cons w ws ih =>
    intro written hw
    by_cases h : written < rsp.length
    · cases w with
      | ok n =>
        by_cases hn : n = 0
        · subst hn
          refine ⟨written, le_refl _, hw, ?_, ?_⟩
          · simp [writePhase, if_pos h, concatAll]
          · intro hc
            rw [writePhase, if_pos h] at hc
            dsimp only at hc
            rw [if_pos rfl] at hc
            cases hc
        · have hmin1 : 1 ≤ min n (rsp.length - written) :=
            Nat.le_min.mpr ⟨Nat.one_le_iff_ne_zero.mpr hn, by omega⟩
          have hminr : min n (rsp.length - written) ≤ rsp.length - written :=
            Nat.min_le_right _ _
          have hle : written + min n (rsp.length - written) ≤ rsp.length := by omega
          obtain ⟨w2, hw1, hw2, hcc, hcomp⟩ := ih (written + min n (rsp.length - written)) hle
          rw [writePhase_cons_ok rsp rsp.length written n ws h hn]
          refine ⟨w2, by omega, hw2, ?_, hcomp⟩
          rw [concatAll, hcc]
          have hdd : rsp.drop (written + min n (rsp.length - written))
              = (rsp.drop written).drop (min n (rsp.length - written)) := by
            rw [List.drop_drop, Nat.add_comm]
          have hsplit : w2 - written
              = min n (rsp.length - written) + (w2 - (written + min n (rsp.length - written))) := by
            omega
          rw [hdd, hsplit, List.take_add]
      | err k =>
        refine ⟨written, le_refl _, hw, ?_, ?_⟩
        · cases k <;> simp [writePhase, if_pos h, concatAll]
        · intro hc
          cases k <;> (rw [writePhase, if_pos h] at hc; dsimp only at hc; cases hc)
    · have hwl : written = rsp.length := by omega
      subst hwl
      refine ⟨rsp.length, le_refl _, le_refl _, ?_, fun _ => rfl⟩
      simp [writePhase, concatAll]

/-- When every pending write result is a positive success and there
are at least as many of them as remaining bytes, the drain loop
completes and transmits exactly the remaining slice. -/
lemma writePhase_complete (rsp : List Nat) (ws : List WriteRes) :
    ∀ written, (∀ w ∈ ws, ∃ n, w = WriteRes.ok n ∧ 0 < n) →
      rsp.length - written ≤ ws.length → written ≤ rsp.length →
      (writePhase rsp rsp.length written ws).2 = .completed
      ∧ concatAll (writePhase rsp rsp.length written ws).1
          = (rsp.drop written).take (rsp.length - written) := by
  induction ws with
  | nil =>
    intro written hok hlen hwle
    have hwl : written = rsp.length := by simp at hlen; omega
    subst hwl
    simp [writePhase, concatAll]
  | cons w ws ih =>
    intro written hok hlen hwle
    by_cases h : written < rsp.length
    · obtain ⟨n, rfl, hn⟩ := hok w (List.mem_cons_self w ws)
      have hn0 : ¬ n = 0 := by omega
      have hmin1 : 1 ≤ min n (rsp.length - written) :=
        Nat.le_min.mpr ⟨Nat.one_le_iff_ne_zero.mpr hn0, by omega⟩
      have hminr : min n (rsp.length - written) ≤ rsp.length - written :=
        Nat.min_le_right _ _
      obtain ⟨hc, hcc⟩ := ih (written + min n (rsp.length - written))
        (fun w2 hw2 => hok w2 (List.mem_cons_of_mem _ hw2))
        (by simp at hlen; omega) (by omega)
      rw [writePhase_cons_ok rsp rsp.length written n ws h hn0]
      refine ⟨hc, ?_⟩
      rw [concatAll, hcc]
      have hdd : rsp.drop (written + min n (rsp.length - written))
          = (rsp.drop written).drop (min n (rsp.length - written)) := by
        rw [List.drop_drop, Nat.add_comm]
      rw [hdd, ← List.take_add]
      congr 1
      omega
    · have hwl : written = rsp.length := by omega
      subst hwl
      simp [writePhase, concatAll]

/-- C7 counterexample: in the envWriteBlock scenario a two byte
response is encoded, the socket accepts one byte and then would-blocks,
and the following read would-blocks, terminating the task: only one of
the two response bytes is ever transmitted, so with interleaved
would-block results the write phase does not eventually write all
bytes. -/
theorem write_not_eventually_complete :
    Act.encoded [66, 67] ∈ run 12 (initConfig envWriteBlock)
    ∧ bytesWritten (run 12 (initConfig envWriteBlock)) = [66]
    ∧ steps 7 (initConfig envWriteBlock) = none :=
  ⟨by decide, by decide, by decide⟩

/-- C7 amended: within one run of the write drain loop the transmitted
chunks concatenate to a contiguous in-order prefix slice of the
response bytes with no duplication and no gap, each successful write
of n bytes advancing the cursor by exactly n, and a completed outcome
means the full response was written; when every write result is a
positive success and there are enough of them the loop writes all
bytes in order and completes; a write of zero bytes closes the
connection; and on full completion the epilogue resets the response
buffer length to zero with its capacity retained.  A would-block stops
the loop with the remainder retained for later cycles, which may never
run, so completion under interleaved would-blocks is not guaranteed
(see the counterexample). -/
theorem write_phase_behaviour (rsp : List Nat) (ws ws2 : List WriteRes)
    (len written : Nat) (b : Bufs) (env : Oracle) :
    (written ≤ rsp.length →
      ∃ w2, written ≤ w2 ∧ w2 ≤ rsp.length ∧
        concatAll (writePhase rsp rsp.length written ws).1
          = (rsp.drop written).take (w2 - written) ∧
        ((writePhase rsp rsp.length written ws).2 = .completed → w2 = rsp.length))
    ∧ ((∀ w ∈ ws, ∃ n, w = WriteRes.ok n ∧ 0 < n) → rsp.length ≤ ws.length →
      (writePhase rsp rsp.length 0 ws).2 = .completed
      ∧ concatAll (writePhase rsp rsp.length 0 ws).1 = rsp)
    ∧ (written < len → writePhase rsp len written (.ok 0 :: ws2) = ([], .closedZero))
    ∧ (step ⟨.afterWrite len len, b, env⟩
        = ([], some ⟨.waiting, { b with rspBuf := [] }, env⟩)
      ∧ ({ b with rspBuf := ([] : List Nat) }).rspCap = b.rspCap) := by
  refine ⟨writePhase_inorder rsp ws written, ?_, ?_, ?_, rfl⟩
  · intro hok hlen
    obtain ⟨hc, hcc⟩ := writePhase_complete rsp ws 0 hok (by omega) (by omega)
    refine ⟨hc, ?_⟩
    rw [hcc]
    simp
  · intro h
    rw [writePhase, if_pos h]
    dsimp only
    rw [if_pos rfl]
  · unfold step
    dsimp only
    rw [if_pos rfl]

/-- Witness for write_phase_behaviour: two single byte writes drain a
two byte response completely and in order. -/
theorem write_phase_behaviour_witness :
    (writePhase [65, 66] 2 0 [.ok 1, .ok 1]).2 = .completed
    ∧ concatAll (writePhase [65, 66] 2 0 [.ok 1, .ok 1]).1 = [65, 66] :=
  (write_phase_behaviour [65, 66] [.ok 1, .ok 1] [] 0 0
      ⟨[], 0, [], 0, []⟩ ⟨[], [], [], []⟩).2.1
    (fun w hw => by
      simp at hw
      rcases hw with rfl | rfl <;> exact ⟨1, rfl, Nat.one_pos⟩)
    (by decide)

/-- C8 counterexample: after an accept error of any of the four kinds,
including kinds the claim calls acceptor-fatal, the accept loop logs,
skips, and still spawns the following connection: no accept error
terminates the loop. -/
theorem accept_error_never_terminates :
    acceptLoop [.err .other, .conn 7] = [.acceptLogged, .spawned 7]
    ∧ acceptLoop [.err .connectionReset, .conn 7] = [.acceptLogged, .spawned 7]
    ∧ acceptLoop [.err .unexpectedEof, .conn 7] = [.acceptLogged, .spawned 7]
    ∧ acceptLoop [.err .wouldBlock, .conn 7] = [.acceptLogged, .spawned 7] :=
  ⟨rfl, rfl, rfl, rfl⟩

/-- C8 amended: every per-accept error, of every kind, is logged and
skipped and the accept loop continues with the remaining accept
results; every successful accept spawns a connection task; the loop
handles every accept result and never terminates early on an error. -/
theorem accept_errors_logged_and_skipped (k : IoErrorKind) (i : Nat)
    (rest l : List AcceptRes) :
    acceptLoop (.err k :: rest) = .acceptLogged :: acceptLoop rest
    ∧ acceptLoop (.conn i :: rest) = .spawned i :: acceptLoop rest
    ∧ (acceptLoop l).length = l.length := by
  refine ⟨rfl, rfl, ?_⟩
  induction l with
  | nil => rfl
  | cons x rest2 ih => cases x <;> simp [acceptLoop, ih]

/-- Invariant of the single-byte-read growth trajectory under every
over-allocation schedule: length equals the number of reads, free
capacity stays at least 511, and growth events are spaced at least
31746 reads apart, tracked by a potential on the free capacity capped
at 32257. -/
lemma bufSimND_invariant (ex : Nat → Nat) (n : Nat) :
    (bufSimND ex n).len = n
    ∧ 511 ≤ (bufSimND ex n).cap - n
    ∧ 31746 * (bufSimND ex n).growths + 32257
        ≤ n + min ((bufSimND ex n).cap - n) 32257 := by
  induction n with
  | zero =>
    have h0 : bufSimND ex 0 = ⟨0, 4096 * 8, 0⟩ := rfl
    rw [h0]
    exact ⟨rfl, by decide, by decide⟩
  | succ n ih =>
    obtain ⟨h1, h2, h3⟩ := ih
    have hstep : bufSimND ex (n + 1) = growStepND (ex n) (bufSimND ex n) := rfl
    rw [hstep]
    unfold growStepND reserveCapND
    dsimp only
    by_cases h : (bufSimND ex n).cap - (bufSimND ex n).len < 512
    · rw [if_pos h]
      dsimp only
      refine ⟨by omega, by omega, by omega⟩
    · rw [if_neg h]
      dsimp only
      refine ⟨by omega, by omega, by omega⟩

/-- In the growth-free regime the trajectory is the same for every
over-allocation schedule: up to read 32257 nothing triggers and the
capacity stays at its initial 4096 * 8. -/
lemma bufSimND_phase1 (ex : Nat → Nat) : ∀ n, n ≤ 32257 → bufSimND ex n = ⟨n, 4096 * 8, 0⟩ := by
  intro n
  induction n with
  | zero => intro _; rfl
  | succ n ih =>
    intro h
    have heq : bufSimND ex (n + 1) = growStepND (ex n) (bufSimND ex n) := rfl
    rw [heq, ih (by omega)]
    unfold growStepND
    dsimp only
    rw [if_neg (by omega : ¬ (4096 * 8 - n < 512))]

/-- First growth event of the exA run: the reserve over-allocates 100
bytes, giving capacity 64614 instead of the minimal 64514. -/
lemma bufSimND_at32258 : bufSimND exA 32258 = ⟨32258, 64614, 1⟩ := by
  have heq : bufSimND exA 32258 = growStepND (exA 32257) (bufSimND exA 32257) := rfl
  rw [heq, bufSimND_phase1 exA 32257 (le_refl _)]
  decide

/-- Between the two growth events of the exA run the capacity stays at
64614. -/
lemma bufSimND_phase2 : ∀ n, n ≤ 64103 → 32258 ≤ n → bufSimND exA n = ⟨n, 64614, 1⟩ := by
  intro n
  induction n with
  | zero => intro _ h2; omega
  | succ n ih =>
    intro h1 h2
    by_cases hb : n + 1 = 32258
    · rw [hb]
      exact bufSimND_at32258
    · have heq : bufSimND exA (n + 1) = growStepND (exA n) (bufSimND exA n) := rfl
      rw [heq, ih (by omega) (by omega)]
      unfold growStepND exA
      dsimp only
      rw [if_neg (by omega : ¬ n = 32257), if_neg (by omega : ¬ (64614 - n < 512))]

/-- Second growth event of the exA run: the reserve returns the
contract minimum, giving capacity 96360. -/
lemma bufSimND_at64104 : bufSimND exA 64104 = ⟨64104, 96360, 2⟩ := by
  have heq : bufSimND exA 64104 = growStepND (exA 64103) (bufSimND exA 64103) := rfl
  rw [heq, bufSimND_phase2 64103 (by omega) (by omega)]
  decide

/-- C9 counterexample: under an over-allocation schedule the at-least
contract of the external reserve permits (100 extra bytes at the first
growth, the minimum afterwards), one connection fed single-byte reads
has two growth events, both triggered below the 512-byte watermark,
that enlarge the capacity by different amounts, 31846 and then 31746:
the read buffer capacity does not grow only in fixed increments. -/
theorem growth_increment_not_fixed :
    ((bufSimND exA 32257).cap - (bufSimND exA 32257).len < 512
      ∧ (bufSimND exA 32258).cap - (bufSimND exA 32257).cap = 31846)
    ∧ ((bufSimND exA 64103).cap - (bufSimND exA 64103).len < 512
      ∧ (bufSimND exA 64104).cap - (bufSimND exA 64103).cap = 31746)
    ∧ ¬ (31846 = 31746) := by
  rw [bufSimND_phase1 exA 32257 (le_refl _), bufSimND_at32258,
      bufSimND_phase2 64103 (by omega) (by omega), bufSimND_at64104]
  exact ⟨⟨by decide, by decide⟩, ⟨by decide, by decide⟩, by decide⟩

/-- C9 amended: for every over-allocation schedule the external
reserve contract permits and every single-byte-read trajectory, growth
is triggered exactly when the free capacity before a read falls below
the fixed 512-byte watermark: a triggered step increments the growth
count and enlarges the capacity by at least the requested 31746 bytes,
an untriggered step leaves count and capacity unchanged; the capacity
never shrinks; and the number of growth events after n reads is at
most the ceiling of n / 31746.  The exact increment of a growth event
is chosen by the external crate and is fixed at 31746 only when the
crate always returns the contract minimum. -/
theorem read_buffer_growth_nd (ex : Nat → Nat) (n : Nat) :
    ((bufSimND ex n).cap - (bufSimND ex n).len < 512 →
      (bufSimND ex n).cap + 31746 ≤ (bufSimND ex (n + 1)).cap
      ∧ (bufSimND ex (n + 1)).growths = (bufSimND ex n).growths + 1)
    ∧ (¬ (bufSimND ex n).cap - (bufSimND ex n).len < 512 →
      (bufSimND ex (n + 1)).cap = (bufSimND ex n).cap
      ∧ (bufSimND ex (n + 1)).growths = (bufSimND ex n).growths)
    ∧ (bufSimND ex n).cap ≤ (bufSimND ex (n + 1)).cap
    ∧ 31746 * (bufSimND ex n).growths ≤ n
    ∧ (bufSimND ex n).growths ≤ (n + 31745) / 31746 := by
  obtain ⟨h1, h2, h3⟩ := bufSimND_invariant ex n
  have hstep : bufSimND ex (n + 1) = growStepND (ex n) (bufSimND ex n) := rfl
  rw [hstep]
  unfold growStepND reserveCapND
  dsimp only
  by_cases h : (bufSimND ex n).cap - (bufSimND ex n).len < 512
  · rw [if_pos h]
    dsimp only
    exact ⟨fun _ => ⟨by omega, by omega⟩, fun hc => absurd h hc,
      by omega, by omega, by omega⟩
  · rw [if_neg h]
    dsimp only
    exact ⟨fun hc => absurd hc h, fun _ => ⟨rfl, rfl⟩,
      le_refl _, by omega, by omega⟩

/-- Witness for read_buffer_growth_nd at the first growth event of the
exA run, discharging the trigger hypothesis there. -/
theorem read_buffer_growth_nd_witness :
    ((bufSimND exA 32257).cap + 31746 ≤ (bufSimND exA 32258).cap
      ∧ (bufSimND exA 32258).growths = (bufSimND exA 32257).growths + 1)
    ∧ 31746 * (bufSimND exA 32257).growths ≤ 32257 :=
  ⟨(read_buffer_growth_nd exA 32257).1
      (by rw [bufSimND_phase1 exA 32257 (le_refl _)]; decide),
   (read_buffer_growth_nd exA 32257).2.2.2.1⟩

/-- C10: the header slot array handed to the decoder is created with
exactly 16 slots on every request cycle (the concrete bound is not in
the spec): every dispatch step hands the decoder the constant
headerSlots = 16 together with the buffered bytes; and, per the spec
contract for the external decoder, a request carrying more than 16
headers makes decoding fail while the slot capacity is left unchanged,
never causing a reallocation. -/
theorem header_slots_fixed (b : Bufs) (env : Oracle) (d : DecodeRes)
    (ds : List DecodeRes) (hc : Nat) :
    headerSlots = 16
    ∧ (env.decodes = d :: ds →
      (step ⟨.dispatch, b, env⟩).1.head? = some (.decodeAttempt headerSlots b.reqBuf))
    ∧ (16 < hc → (decodeHeaderCheck hc headerSlots).1 = false)
    ∧ (decodeHeaderCheck hc headerSlots).2 = headerSlots := by
  refine ⟨rfl, ?_, ?_, rfl⟩
  · obtain ⟨er, ed, es, ew⟩ := env
    intro h
    have h2 : ed = d :: ds := h
    subst h2
    cases d with
    | complete =>
      cases es with
      | nil => rfl
      | cons s ss => cases s <;> rfl
    | needMore => rfl
    | err k => cases k <;> rfl
  · intro h
    simp only [decodeHeaderCheck, headerSlots, decide_eq_false_iff_not]
    omega

/-- Witness for header_slots_fixed: a concrete dispatch hands the
decoder 16 slots, and 17 headers are rejected. -/
theorem header_slots_fixed_witness :
    (step ⟨.dispatch, ⟨[13, 10, 13, 10], 8, [], 8, []⟩,
        ⟨[], [.needMore], [], []⟩⟩).1.head?
      = some (.decodeAttempt headerSlots [13, 10, 13, 10])
    ∧ (decodeHeaderCheck 17 headerSlots).1 = false :=
  ⟨(header_slots_fixed ⟨[13, 10, 13, 10], 8, [], 8, []⟩ ⟨[], [.needMore], [], []⟩
      .needMore [] 17).2.1 rfl,
   (header_slots_fixed ⟨[13, 10, 13, 10], 8, [], 8, []⟩ ⟨[], [.needMore], [], []⟩
      .needMore [] 17).2.2.1 (by decide)⟩
